import Mathlib

/-!
Verification development for the `fetch` download-job orchestrator
(`app.py`).  The Python source is shallowly embedded below: pure string
manipulation becomes functions over `List Char`, the mutable
`DownloadState` dataclass becomes a record threaded through explicit
state-passing, the job registry (a Python dict) becomes an association
list, the filesystem becomes a list of existing paths, and Python
floats are modelled as exact rationals (`ℚ`).  The worker thread body,
whose interaction with the outside world (spawned process, its output
lines, its exit code, the clock) is nondeterministic, is embedded as a
deterministic function of an explicit environment (`WorkerEnv`)
recording those external events; exceptions are modelled with an
explicit result type so that every `try`/`except` of the source is
visible as a `match`.
-/

namespace Fetch

/-! ### Python string primitives -/

/-- Characters treated as whitespace by Python's `str.split()` / `str.strip()`. -/
def isPySpace (c : Char) : Bool :=
  c = ' ' || c = '\t' || c = '\n' || c = '\r' || c = '\x0c' || c = '\x0b'

/-- Python `str.strip()` with no argument: drop whitespace from both ends. -/
def pyStrip (l : List Char) : List Char :=
  ((l.dropWhile isPySpace).reverse.dropWhile isPySpace).reverse

/-- Auxiliary accumulator loop for `wsSplit`. -/
def wsSplitAux : List Char → List Char → List (List Char)
  | [], acc => if acc.isEmpty then [] else [acc.reverse]
  | c :: rest, acc =>
    if isPySpace c then
      if acc.isEmpty then wsSplitAux rest []
      else acc.reverse :: wsSplitAux rest []
    else wsSplitAux rest (c :: acc)

/-- Python `str.split()` with no argument: split on runs of whitespace,
discarding empty pieces. -/
def wsSplit (l : List Char) : List (List Char) := wsSplitAux l []

/-- Splits a character list at the first occurrence of `sep` (Python
`s.split(sep, 1)` when `sep` occurs in `s`): returns the part before
and the part after the separator, `none` when `sep` does not occur. -/
def splitFirst (sep : List Char) : List Char → Option (List Char × List Char)
  | [] => if sep.isEmpty then some ([], []) else none
  | c :: rest =>
    if sep.isPrefixOf (c :: rest) then
      some ([], (c :: rest).drop sep.length)
    else
      match splitFirst sep rest with
      | some (pre, post) => some (c :: pre, post)
      | none => none

/-- The part of `l` before the first occurrence of `sep`, or all of `l`
when `sep` does not occur (Python `s.split(sep, 1)[0]`). -/
def splitBefore (sep l : List Char) : List Char :=
  match splitFirst sep l with
  | some (pre, _) => pre
  | none => l

/-- Python's `in` operator on strings, as lists of characters: does
`sep` occur contiguously inside `l`? -/
def infixB (sep : List Char) : List Char → Bool
  | [] => sep.isEmpty
  | c :: rest => sep.isPrefixOf (c :: rest) || infixB sep rest

/-- ASCII decimal digit test. -/
def isAsciiDigit (c : Char) : Bool := '0' ≤ c && c ≤ '9'

/-- Numeric value of a digit string, as a natural number. -/
def digitsValNat (l : List Char) : ℕ :=
  l.foldl (fun a c => a * 10 + (c.toNat - 48)) 0

/-- Numeric value of a digit string, as a rational. -/
def digitsVal (l : List Char) : ℚ := (digitsValNat l : ℚ)

/-- Parses a decimal literal `digits [. digits]` (either side of the dot
may be empty but not both) from the front of `l`, returning its value
and the unconsumed rest. -/
def parseDecimal (l : List Char) : Option (ℚ × List Char) :=
  let ip := l.takeWhile isAsciiDigit
  let r1 := l.dropWhile isAsciiDigit
  match r1 with
  | '.' :: r2 =>
    let fp := r2.takeWhile isAsciiDigit
    let r3 := r2.dropWhile isAsciiDigit
    if ip.isEmpty && fp.isEmpty then none
    else some (digitsVal ip + digitsVal fp / ((10 : ℚ) ^ fp.length), r3)
  | _ => if ip.isEmpty then none else some (digitsVal ip, r1)

/-- Applies a base-ten exponent to a rational value. -/
def applyExp (v : ℚ) (eneg : Bool) (e : ℕ) : ℚ :=
  if eneg then v / (10 : ℚ) ^ e else v * (10 : ℚ) ^ e

/-- Parses the exponent tail `[+|-] digits` of a float literal and
applies it to `v`; fails unless the whole rest is consumed. -/
def expPart (v : ℚ) (r : List Char) : Option ℚ :=
  let (eneg, r1) :=
    match r with
    | '+' :: t => (false, t)
    | '-' :: t => (true, t)
    | _ => (false, r)
  let ds := r1.takeWhile isAsciiDigit
  if ds.isEmpty || !(r1.dropWhile isAsciiDigit).isEmpty then none
  else some (applyExp v eneg (digitsValNat ds))

/-- Modelled from Python's builtin `float(s)` on the finite decimal
literals relevant here: an optional sign, a decimal literal, and an
optional exponent (`inf`/`nan`/underscore forms are not modelled; the
inputs fed to `float` in this program are whitespace-free tokens
produced by `str.split()`).  Values are exact rationals.  Returns
`none` exactly when Python would raise `ValueError`. -/
def pyFloat : List Char → Option ℚ
  | l =>
    let (neg, l1) :=
      match l with
      | '+' :: r => (false, r)
      | '-' :: r => (true, r)
      | _ => (false, l)
    match parseDecimal l1 with
    | none => none
    | some (v, rest) =>
      let v := if neg then -v else v
      match rest with
      | [] => some v
      | 'e' :: r => expPart v r
      | 'E' :: r => expPart v r
      | _ => none

/-- One step of Python `str.replace` (all occurrences, left to right),
with explicit fuel; `fuel ≥ l.length` suffices for nonempty `sep`. -/
def replaceAllFuel (sep repl : List Char) : ℕ → List Char → List Char
  | 0, l => l
  | fuel + 1, l =>
    match splitFirst sep l with
    | some (pre, post) => pre ++ repl ++ replaceAllFuel sep repl fuel post
    | none => l

/-- Python `s.replace(sep, repl)`: replaces every occurrence. -/
def pyReplace (s sep repl : String) : String :=
  String.mk (replaceAllFuel sep.toList repl.toList s.toList.length s.toList)

/-- ASCII lower-casing, as performed by Python `str.lower()` on the
ASCII error strings inspected in this program. -/
def asciiLower (c : Char) : Char :=
  if 'A' ≤ c && c ≤ 'Z' then Char.ofNat (c.toNat + 32) else c

/-- Python `str.lower()` restricted to ASCII content. -/
def lowerStr (l : List Char) : List Char := l.map asciiLower

/-! ### Data model: the `DownloadState` dataclass (app.py lines 293-308).

`process`, a raw OS handle, is not representable as data and carries no
information used by any claim; all other fields are embedded one-to-one.
Python floats become exact rationals. -/

/-- The mutable per-job record of the orchestrator. -/
structure DownloadState where
  id : String
  url : String
  format_id : String
  /-- one of "queued", "downloading", "complete", "failed", "cancelled" -/
  status : String
  output_path : String
  progress : ℚ := 0
  speed : String := ""
  eta : String := ""
  error : Option String := none
  created_at : ℚ := 0
  completed_at : Option ℚ := none
  final_path : Option String := none
  cancel_requested : Bool := false
deriving DecidableEq

/-- The job constructed by `DownloadOrchestrator.start_download`
(app.py lines 317-330) for a given generated id: status "queued",
output path `<download_dir>/<id>.%(ext)s`, all other fields at their
dataclass defaults. -/
def start_download_state (dir id url format_id : String) (t : ℚ) : DownloadState :=
  { id := id
    url := url
    format_id := format_id
    status := "queued"
    output_path := dir ++ "/" ++ id ++ ".%(ext)s"
    created_at := t }

/-! ### `DownloadOrchestrator._parse_progress_line` (app.py lines 440-461) -/

/-- Embedding of `_parse_progress_line`: the three independent `try`
blocks of the source become the three guarded updates below; every
`except ... pass` is the branch that returns the state unchanged
(an out-of-range list index from `[-1]` or a `ValueError` from
`float` is absorbed). -/
def parse_progress_line (line : String) (st : DownloadState) : DownloadState :=
  let l := line.toList
  if !(infixB "[download]".toList l) then st
  else
    let st1 :=
      if infixB "%".toList l then
        match (wsSplit (splitBefore "%".toList l)).getLast? with
        | some tok =>
          match pyFloat tok with
          | some v => { st with progress := v }
          | none => st
        | none => st
      else st
    let st2 :=
      if infixB " at ".toList l && infixB "/s".toList l then
        match splitFirst " at ".toList l with
        | some (_, after_at) =>
          { st1 with speed := String.mk (pyStrip (splitBefore " ETA".toList after_at)) }
        | none => st1
      else st1
    if infixB "ETA".toList l then
      match splitFirst "ETA".toList l with
      | some (_, rest) => { st2 with eta := String.mk (pyStrip rest) }
      | none => st2
    else st2

/-- The percent value `_parse_progress_line` would store for a given
line, if any: last whitespace-delimited token before the first `%`,
parsed as a float, provided the `[download]` marker is present. -/
def extractPercent (line : String) : Option ℚ :=
  let l := line.toList
  if !(infixB "[download]".toList l) then none
  else if infixB "%".toList l then
    match (wsSplit (splitBefore "%".toList l)).getLast? with
    | some tok => pyFloat tok
    | none => none
  else none

/-- The speed label `_parse_progress_line` would store for a given
line, if any: the trimmed substring between the first `" at "` and the
following `" ETA"` (or the end of the line), provided the line contains
the `[download]` marker, `" at "`, and also `"/s"`. -/
def extractSpeed (line : String) : Option String :=
  let l := line.toList
  if !(infixB "[download]".toList l) then none
  else if infixB " at ".toList l && infixB "/s".toList l then
    match splitFirst " at ".toList l with
    | some (_, after_at) => some (String.mk (pyStrip (splitBefore " ETA".toList after_at)))
    | none => none
  else none

/-- The ETA label `_parse_progress_line` would store for a given line,
if any: the trimmed substring after the first `"ETA"`, provided the
line contains the `[download]` marker and `"ETA"`. -/
def extractEta (line : String) : Option String :=
  let l := line.toList
  if !(infixB "[download]".toList l) then none
  else if infixB "ETA".toList l then
    match splitFirst "ETA".toList l with
    | some (_, rest) => some (String.mk (pyStrip rest))
    | none => none
  else none

/-- The progress field after a parse step is the extracted percent
value when one is extracted, and the previous value otherwise. -/
theorem parse_progress_eq (line : String) (st : DownloadState) :
    (parse_progress_line line st).progress = (extractPercent line).getD st.progress := by
  simp only [parse_progress_line, extractPercent]
  repeat' split
  all_goals simp_all

/-- The speed field after a parse step is the extracted speed label
when one is extracted, and the previous value otherwise. -/
theorem parse_speed_eq (line : String) (st : DownloadState) :
    (parse_progress_line line st).speed = (extractSpeed line).getD st.speed := by
  simp only [parse_progress_line, extractSpeed]
  repeat' split
  all_goals simp_all

/-- The eta field after a parse step is the extracted eta label when
one is extracted, and the previous value otherwise. -/
theorem parse_eta_eq (line : String) (st : DownloadState) :
    (parse_progress_line line st).eta = (extractEta line).getD st.eta := by
  simp only [parse_progress_line, extractEta]
  repeat' split
  all_goals simp_all

/-- A parse step never changes any field other than `progress`,
`speed` and `eta`. -/
theorem parse_fields_eq (line : String) (st : DownloadState) :
    (parse_progress_line line st).id = st.id ∧
    (parse_progress_line line st).url = st.url ∧
    (parse_progress_line line st).format_id = st.format_id ∧
    (parse_progress_line line st).status = st.status ∧
    (parse_progress_line line st).output_path = st.output_path ∧
    (parse_progress_line line st).error = st.error ∧
    (parse_progress_line line st).created_at = st.created_at ∧
    (parse_progress_line line st).completed_at = st.completed_at ∧
    (parse_progress_line line st).final_path = st.final_path ∧
    (parse_progress_line line st).cancel_requested = st.cancel_requested := by
  simp only [parse_progress_line]
  repeat' split
  all_goals simp_all

/-! ### Filesystem and glob model.

The filesystem is a list of the absolute paths of currently existing
files (its order fixes the otherwise OS-dependent order of glob
results).  The program only ever builds glob patterns of the shape
`<stem>.*` where `<stem>` contains no wildcard, so the glob matcher is
modelled for exactly that shape: a path matches when it is `<stem>.`
followed by a suffix free of path separators. -/

/-- Does `p` match the pattern `<stem>.*`? -/
def matchStemDotStar (stem p : List Char) : Bool :=
  (stem ++ ['.']).isPrefixOf p && (p.drop (stem.length + 1)).all (fun c => c ≠ '/')

/-- Modelled `glob.glob` for the patterns this program constructs: a
`<stem>.*` pattern matches as above; a pattern with no wildcard
matches only itself.  Returns the matching existing paths. -/
def globMatchB (pattern p : String) : Bool :=
  let pl := pattern.toList
  if pl.getLast? = some '*' && pl.dropLast.getLast? = some '.' then
    matchStemDotStar pl.dropLast.dropLast p.toList
  else pl == p.toList

/-- All existing paths matching `pattern`, in filesystem order. -/
def globList (pattern : String) (fs : List String) : List String :=
  fs.filter (globMatchB pattern)

/-! ### Job registry.

The Python dict `active_downloads` becomes an association list from
job id to `DownloadState` (Python dict keys are unique; lemmas that
need uniqueness take it as a hypothesis).  In-place mutation of the
shared dataclass becomes replacement of the entry. -/

/-- The registry of jobs, keyed by job id. -/
abbrev Registry := List (String × DownloadState)

/-- Replaces the first entry keyed `id` by `(id, st)`: the model of
mutating, in place, the dataclass object the dict holds under that
(unique) key. -/
def setEntry : Registry → String → DownloadState → Registry
  | [], _, _ => []
  | e :: rest, id, st => if e.1 = id then (id, st) :: rest else e :: setEntry rest id st

/-- Embedding of `DownloadOrchestrator.cancel_download` (app.py lines
499-502): look the id up; if a job is found and its status is
"downloading", set its `cancel_requested` flag; otherwise do nothing.
The function is total: no input raises. -/
def cancel_download (reg : Registry) (id : String) : Registry :=
  match List.lookup id reg with
  | none => reg
  | some st =>
    if st.status = "downloading" then
      setEntry reg id { st with cancel_requested := true }
    else reg

/-! ### The worker (`DownloadOrchestrator._download_worker`, app.py
lines 332-438). -/

/-- The Python exceptions that can be raised inside the worker body. -/
inductive PyExn
  | runtimeError (msg : String)
  | calledProcessError (rc : Int)
  | timeoutExpired
  | oserror (errno : Int) (msg : String)
deriving DecidableEq

/-- Modelled from Python's `str(e)` on the exceptions above: a
`RuntimeError`'s string is its message; the texts of the other two are
fixed summaries (no claim depends on their exact content). -/
def exnStr : PyExn → String
  | .runtimeError m => m
  | .calledProcessError rc => "Command returned non-zero exit status " ++ toString rc ++ "."
  | .timeoutExpired => "Command timed out"
  | .oserror _ m => m

/-- The error message stored by the worker's `except` handlers (app.py
lines 425-438): an `OSError` with errno 28 becomes the storage-full
message, any other exception stores its `str`. -/
def errMsgOf : PyExn → String
  | .oserror errno m => if errno = 28 then "Storage full - contact admin" else m
  | e => exnStr e

/-- Embedding of the stderr classification of app.py lines 402-424:
recover an error message from the captured stderr, then map known
substrings to user-facing `RuntimeError`s; an empty message falls back
to `CalledProcessError`. -/
def classifyError (rc : Int) (stderr_lines : List String) : PyExn :=
  let em0 := pyStrip ((stderr_lines.map String.toList).flatten)
  let em :=
    if infixB "ERROR".toList em0 then
      match stderr_lines.find? (fun ln => infixB "ERROR:".toList ln.toList) with
      | some ln =>
        match splitFirst "ERROR:".toList ln.toList with
        | some (_, post) => pyStrip post
        | none => em0
      | none => em0
    else em0
  let eml := lowerStr em
  if infixB "403".toList em || infixB "forbidden".toList eml then
    .runtimeError "YouTube blocked the download (403 Forbidden). This video may require yt-dlp to be updated, or try selecting a different format."
  else if infixB "not available".toList eml || infixB "no suitable format".toList eml then
    .runtimeError "Selected format is no longer available. Try re-analyzing the video."
  else if infixB "private".toList eml then
    .runtimeError "Video is private or unavailable"
  else if infixB "sign in".toList eml || infixB "age".toList eml then
    .runtimeError "Age-restricted video (not supported)"
  else if !em.isEmpty then
    .runtimeError ("Download failed: " ++ String.mk (em.take 200))
  else .calledProcessError rc

/-- Embedding of `DownloadOrchestrator._cleanup_partial_files` (app.py
lines 479-485): remove from the filesystem every path matching the
job's output pattern; `os.remove` failures are swallowed, so in the
model removal simply succeeds. -/
def cleanup_partial_files (st : DownloadState) (fs : List String) : List String :=
  fs.filter (fun p => !(globMatchB (pyReplace st.output_path ".%(ext)s" ".*") p))

/-- Embedding of `DownloadOrchestrator._find_downloaded_file` (app.py
lines 463-466): glob the output pattern and take the first match. -/
def find_downloaded_file (st : DownloadState) (fs : List String) : Option String :=
  (globList (pyReplace st.output_path ".%(ext)s" ".*") fs).head?

/-- The external events one run of the worker observes, in program
order: whether spawning raised, whether `process.stdout` was readable,
the stdout lines (each paired with the value of the shared
`cancel_requested` flag at the moment the loop's cancellation check
reads it), whether reading raised after those lines, whether
`process.wait` timed out, the exit code, the captured stderr lines,
the filesystem at glob/cleanup time, and the completion clock value. -/
structure WorkerEnv where
  spawn_error : Option PyExn := none
  stdout_ok : Bool := true
  lines : List (Bool × String) := []
  read_error : Option PyExn := none
  wait_timeout : Bool := false
  returncode : Int := 0
  stderr_lines : List String := []
  fs : List String := []
  now : ℚ := 0
deriving DecidableEq

/-- Result of the worker's stdout loop: the state when the loop ends,
whether it ended on the cancellation check, and the state after each
iteration (the mutation trace). -/
structure LoopResult where
  state : DownloadState
  cancelled : Bool
  trace : List DownloadState
deriving DecidableEq

/-- Embedding of the worker's `for line in process.stdout` loop
(app.py lines 379-386): before each line, the cancellation check; if
the observed flag is set, the process is killed, the status becomes
"cancelled" and the worker returns (the `return` inside `finally`
swallows any `kill` failure); otherwise the line is parsed. -/
def workerLoop : List (Bool × String) → DownloadState → LoopResult
  | [], st => ⟨st, false, []⟩
  | (obs, line) :: rest, st =>
    if obs then
      let st' := { st with status := "cancelled" }
      ⟨st', true, [st']⟩
    else
      let st' := parse_progress_line line st
      let r := workerLoop rest st'
      ⟨r.state, r.cancelled, st' :: r.trace⟩

/-- The state at the end of the worker's success branch (app.py lines
394-398): status "complete", progress forced to 100, the completion
clock recorded, and the artifact path found by glob.  (`glob` reads
only `output_path`, which the three preceding assignments do not touch,
so globbing from `st` equals globbing from the thrice-updated state.)
The subsequent `os.path.exists` check of lines 399-401 only gates a
log line. -/
def completeFinal (st : DownloadState) (fs : List String) (now : ℚ) : DownloadState :=
  { st with
    status := "complete"
    progress := 100
    completed_at := some now
    final_path := find_downloaded_file st fs }

/-- The four mutations of the worker's success branch, in source
order: status, progress, completion time, then the artifact path. -/
def completeSeq (st : DownloadState) (fs : List String) (now : ℚ) : List DownloadState :=
  [{ st with status := "complete" },
   { st with status := "complete", progress := 100 },
   { st with status := "complete", progress := 100, completed_at := some now },
   completeFinal st fs now]

/-- Result of the `try` block of the worker: either a normal return
with the final state and mutation trace, or an exception together with
the state and trace at the raise point. -/
inductive BodyResult
  | ok (fin : DownloadState) (trace : List DownloadState)
  | raised (e : PyExn) (st : DownloadState) (trace : List DownloadState)
deriving DecidableEq

/-- Embedding of the `try` block of `_download_worker` (app.py lines
336-424): spawn, read stdout with the cancellation checkpoint, wait,
then classify the exit.  Every `raise`, and every operation that can
raise, surfaces as a `.raised`. -/
def workerBody (env : WorkerEnv) (st1 : DownloadState) : BodyResult :=
  match env.spawn_error with
  | some e => .raised e st1 []
  | none =>
    if env.stdout_ok = false then
      .raised (.runtimeError "Failed to read yt-dlp output") st1 []
    else
      let r := workerLoop env.lines st1
      if r.cancelled then .ok r.state r.trace
      else
        match env.read_error with
        | some e => .raised e r.state r.trace
        | none =>
          if env.wait_timeout then .raised .timeoutExpired r.state r.trace
          else if env.returncode = 0 then
            .ok (completeFinal r.state env.fs env.now)
              (r.trace ++ completeSeq r.state env.fs env.now)
          else .raised (classifyError env.returncode env.stderr_lines) r.state r.trace

/-- One worker run: final job state, resulting filesystem, and the
trace of states after each mutation (beginning with the entry
assignment `status := "downloading"`). -/
structure WorkerRun where
  final : DownloadState
  fs : List String
  trace : List DownloadState
deriving DecidableEq

/-- Embedding of `_download_worker` (app.py lines 332-438): the entry
assignment to "downloading", the `try` body, and the two `except`
handlers, which both set status "failed", store a message and delete
partial files.  The handlers return normally, so no exception ever
escapes the worker (which is why the completion callback of app.py
lines 468-477 never sees one). -/
def download_worker (env : WorkerEnv) (st0 : DownloadState) : WorkerRun :=
  let st1 := { st0 with status := "downloading" }
  match workerBody env st1 with
  | .ok fin tr => ⟨fin, env.fs, st1 :: tr⟩
  | .raised e cur tr =>
    let s1 := { cur with status := "failed" }
    let s2 := { s1 with error := some (errMsgOf e) }
    ⟨s2, cleanup_partial_files s2 env.fs, st1 :: (tr ++ [s1, s2])⟩

/-- Embedding of `DownloadOrchestrator._handle_completion` (app.py
lines 468-477): it acts only when `future.result()` re-raises an
exception escaping the worker; in that case the job (when still
registered) is marked failed and its partial files removed. -/
def handle_completion (reg : Registry) (id : String) (exn : Option String)
    (fs : List String) : Registry × List String :=
  match exn with
  | none => (reg, fs)
  | some e =>
    match List.lookup id reg with
    | none => (reg, fs)
    | some st =>
      let st' := { st with status := "failed", error := some e }
      (setEntry reg id st', cleanup_partial_files st' fs)

/-! ### Retention sweep (`cleanup_expired_downloads`, app.py lines
504-517). -/

/-- The sweep's expiry test `state.completed_at and state.completed_at
< cutoff`: Python truthiness makes a completion time of exactly `0.0`
falsy, so it is embedded explicitly. -/
def completedExpired (cutoff : ℚ) (st : DownloadState) : Bool :=
  match st.completed_at with
  | some t => decide (t ≠ 0 ∧ t < cutoff)
  | none => false

/-- First pass of the sweep: walk the registry snapshot, best-effort
deleting the artifact of each expired job (`state.final_path and
os.path.exists(...)`: an empty-string path is falsy, a missing file is
skipped) and collecting the ids to evict.  Returns the filesystem
after the deletions and the collected ids. -/
def sweepFiles (cutoff : ℚ) : List (String × DownloadState) → List String → List String × List String
  | [], fs => (fs, [])
  | (i, st) :: rest, fs =>
    if completedExpired cutoff st then
      let fs2 :=
        match st.final_path with
        | some p => if p ≠ "" ∧ p ∈ fs then fs.erase p else fs
        | none => fs
      let r := sweepFiles cutoff rest fs2
      (r.1, i :: r.2)
    else sweepFiles cutoff rest fs

/-- Embedding of `cleanup_expired_downloads`: compute the cutoff,
delete expired artifacts and collect their ids, then pop the collected
ids from the registry. -/
def cleanup_expired_downloads (now retentionHours : ℚ) (fs : List String)
    (reg : Registry) : List String × Registry :=
  let cutoff := now - retentionHours * 3600
  let r := sweepFiles cutoff reg fs
  (r.1, List.filter (fun e => !(decide (e.1 ∈ r.2))) reg)

/-! ### StorageAgent (`get_file_path`, app.py lines 530-543). -/

/-- A character of the id alphabet `[a-zA-Z0-9_-]`. -/
def isIdChar (c : Char) : Bool :=
  ('a' ≤ c && c ≤ 'z') || ('A' ≤ c && c ≤ 'Z') || ('0' ≤ c && c ≤ '9') || c = '_' || c = '-'

/-- Embedding of `re.match(r"^[a-zA-Z0-9_\-]{16,32}$", s)` with
Python's `$` semantics: `$` matches at the end of the string or just
before one final newline, so the pattern accepts 16 to 32 alphabet
characters optionally followed by a single trailing newline. -/
def idShapeMatch (s : String) : Bool :=
  let l := s.toList
  let core := if l.getLast? = some '\n' then l.dropLast else l
  core.all isIdChar && decide (16 ≤ core.length) && decide (core.length ≤ 32)

/-- The shape check as the specification words it: every character in
the fixed alphabet and length between 16 and 32 — with no trailing
newline allowance. -/
def strictShape (s : String) : Bool :=
  s.toList.all isIdChar && decide (16 ≤ s.toList.length) && decide (s.toList.length ≤ 32)

/-- Outcome of `StorageAgent.get_file_path`: the two `ValueError`s of
the source (invalid id, failed containment check) and the
`FileNotFoundError`, or the resolved path. -/
inductive StorageResult
  | ok (path : String)
  | invalidId
  | notFound
  | traversal
deriving DecidableEq

/-- A filesystem access performed by the storage agent. -/
inductive FsOp
  | globOp (pattern : String)
  | resolveOp (path : String)
deriving DecidableEq

/-- The storage agent's view of the world: the existing files and the
kernel's path resolution (`Path.resolve`, which follows symlinks and
normalises, is an arbitrary function of the filesystem state). -/
structure StorageEnv where
  fs : List String
  resolve : String → String

/-- `self.download_dir.glob(f"{download_id}.*")`: the existing paths
under `dir` matching the id pattern. -/
def pathGlob (dir id : String) (fs : List String) : List String :=
  fs.filter (fun p => matchStemDotStar (dir.toList ++ '/' :: id.toList) p.toList)

/-- Python `str.startswith`, used for the containment re-verification. -/
def pyStartswith (a b : String) : Bool := a.toList.isPrefixOf b.toList

/-- Embedding of `StorageAgent.get_file_path` (app.py lines 530-543),
together with the trace of filesystem accesses it performs: the shape
check runs first and touches nothing; only then is the directory
globbed; a first match is resolved and its string form checked to
start with the resolved storage root. -/
def get_file_path (env : StorageEnv) (dir id : String) : StorageResult × List FsOp :=
  if idShapeMatch id = false then (.invalidId, [])
  else
    match pathGlob dir id env.fs with
    | [] => (.notFound, [.globOp (id ++ ".*")])
    | m :: _ =>
      let filepath := env.resolve m
      let root := env.resolve dir
      if pyStartswith root filepath then
        (.ok filepath, [.globOp (id ++ ".*"), .resolveOp m, .resolveOp dir])
      else
        (.traversal, [.globOp (id ++ ".*"), .resolveOp m, .resolveOp dir])

/-! ### Job id generation (`secrets.token_urlsafe(16)`, app.py line 318). -/

/-- The URL-safe base64 alphabet used by `base64.urlsafe_b64encode`. -/
def b64urlAlphabet : List Char :=
  "ABCDEFGHIJKLMNOPQRSTUVWXYZabcdefghijklmnopqrstuvwxyz0123456789-_".toList

/-- The alphabet character at index `n` (for `n < 64`). -/
def b64char (n : ℕ) : Char := b64urlAlphabet.getD n 'A'

/-- URL-safe base64 without padding, as `base64.urlsafe_b64encode(b).rstrip(b"=")`:
three input bytes become four characters; a final one or two bytes
become two or three characters. -/
def b64encode : List (Fin 256) → List Char
  | a :: b :: c :: rest =>
    b64char (a.val / 4) :: b64char (a.val % 4 * 16 + b.val / 16) ::
      b64char (b.val % 16 * 4 + c.val / 64) :: b64char (c.val % 64) :: b64encode rest
  | [a, b] => [b64char (a.val / 4), b64char (a.val % 4 * 16 + b.val / 16), b64char (b.val % 16 * 4)]
  | [a] => [b64char (a.val / 4), b64char (a.val % 4 * 16)]
  | [] => []

/-- `secrets.token_urlsafe(16)` as a function of the 16 random bytes
drawn from the operating system. -/
def tokenUrlsafe (bytes : List (Fin 256)) : String := String.mk (b64encode bytes)

/-! ### Status-transition machinery -/

/-- One admissible move of a job's status: stay put, enter "downloading"
from "queued", or enter a terminal status from "downloading".  This is
the spec's Queued → Running → {Complete, Failed, Cancelled} order with
no move out of a terminal status and no re-entry into "downloading". -/
def statusStep (a b : String) : Prop :=
  a = b ∨ (a = "queued" ∧ b = "downloading") ∨
    (a = "downloading" ∧ (b = "complete" ∨ b = "failed" ∨ b = "cancelled"))

instance (a b : String) : Decidable (statusStep a b) :=
  inferInstanceAs (Decidable (a = b ∨ (a = "queued" ∧ b = "downloading") ∨
    (a = "downloading" ∧ (b = "complete" ∨ b = "failed" ∨ b = "cancelled"))))

/-- A sample fresh job used by the concrete counterexample and witness
statements below. -/
def sampleState : DownloadState :=
  start_download_state "/downloads" "abcdefghabcdefgh" "https://youtu.be/x" "22" 0

/-! ### Worker-loop lemmas -/

/-- The loop ends on the cancellation checkpoint exactly when some
iteration observes the flag set. -/
theorem workerLoop_cancelled (ls : List (Bool × String)) (st : DownloadState) :
    (workerLoop ls st).cancelled = ls.any (fun x => x.1) := by
  induction ls generalizing st with
  | nil => simp [workerLoop]
  | cons hd tl ih =>
    obtain ⟨obs, line⟩ := hd
    by_cases h : obs <;> simp [workerLoop, h, ih]

/-- The state the loop ends with: "cancelled" when the checkpoint
fired, otherwise the incoming status is preserved. -/
theorem workerLoop_status (ls : List (Bool × String)) (st : DownloadState) :
    (workerLoop ls st).state.status =
      (if (workerLoop ls st).cancelled then "cancelled" else st.status) := by
  induction ls generalizing st with
  | nil => simp [workerLoop]
  | cons hd tl ih =>
    obtain ⟨obs, line⟩ := hd
    by_cases h : obs
    · simp [workerLoop, h]
    · simpa [workerLoop, h, (parse_fields_eq line st).2.2.2.1] using ih (parse_progress_line line st)

/-- Neither a parse step nor the cancellation assignment touches the
completion time, artifact path, output path or stored error, so the
loop preserves them. -/
theorem workerLoop_preserves (ls : List (Bool × String)) (st : DownloadState) :
    (workerLoop ls st).state.completed_at = st.completed_at ∧
    (workerLoop ls st).state.final_path = st.final_path ∧
    (workerLoop ls st).state.output_path = st.output_path ∧
    (workerLoop ls st).state.error = st.error := by
  induction ls generalizing st with
  | nil => simp [workerLoop]
  | cons hd tl ih =>
    obtain ⟨obs, line⟩ := hd
    by_cases h : obs
    · simp [workerLoop, h]
    · have hp := parse_fields_eq line st
      have := ih (parse_progress_line line st)
      simp only [workerLoop, h] at *
      simp_all

/-- Every intermediate state of the loop keeps the incoming completion
time and artifact path. -/
theorem workerLoop_trace_preserves (ls : List (Bool × String)) (st : DownloadState) :
    ∀ s ∈ (workerLoop ls st).trace,
      s.completed_at = st.completed_at ∧ s.final_path = st.final_path := by
  induction ls generalizing st with
  | nil => simp [workerLoop]
  | cons hd tl ih =>
    obtain ⟨obs, line⟩ := hd
    by_cases h : obs
    · simp [workerLoop, h]
    · have hp := parse_fields_eq line st
      intro s hs
      have htr : (workerLoop ((obs, line) :: tl) st).trace
          = parse_progress_line line st :: (workerLoop tl (parse_progress_line line st)).trace := by
        simp [workerLoop, h]
      rw [htr] at hs
      rcases List.mem_cons.mp hs with rfl | hs
      · exact ⟨hp.2.2.2.2.2.2.2.1, hp.2.2.2.2.2.2.2.2.1⟩
      · have := ih (parse_progress_line line st) s hs
        simp_all

/-- The loop's mutation trace only ever shows the incoming status (the
parse steps) or "cancelled" (the checkpoint assignment). -/
theorem workerLoop_trace_status (ls : List (Bool × String)) (st : DownloadState) :
    ∀ s ∈ (workerLoop ls st).trace, s.status = st.status ∨ s.status = "cancelled" := by
  induction ls generalizing st with
  | nil => simp [workerLoop]
  | cons hd tl ih =>
    obtain ⟨obs, line⟩ := hd
    by_cases h : obs
    · simp [workerLoop, h]
    · have hp := parse_fields_eq line st
      intro s hs
      have htr : (workerLoop ((obs, line) :: tl) st).trace
          = parse_progress_line line st :: (workerLoop tl (parse_progress_line line st)).trace := by
        simp [workerLoop, h]
      rw [htr] at hs
      rcases List.mem_cons.mp hs with rfl | hs
      · exact Or.inl hp.2.2.2.1
      · have := ih (parse_progress_line line st) s hs
        simp_all

/-- Chain lemma for the loop: starting from "downloading", the loop's
status trace consists of admissible steps, and when the loop does not
cancel it can be continued by any admissible continuation `rest`. -/
theorem workerLoop_chain (rest : List String)
    (hrest : List.Chain statusStep "downloading" rest) :
    ∀ (ls : List (Bool × String)) (st : DownloadState), st.status = "downloading" →
      List.Chain statusStep "downloading"
        (((workerLoop ls st).trace.map DownloadState.status) ++
          (if (workerLoop ls st).cancelled then [] else rest)) := by
  intro ls
  induction ls with
  | nil => intro st h; simpa [workerLoop] using hrest
  | cons hd tl ih =>
    intro st h
    obtain ⟨obs, line⟩ := hd
    by_cases hobs : obs
    · simp only [workerLoop, hobs, if_pos, List.map_cons, List.map_nil, if_true]
      exact List.Chain.cons (by simp [statusStep]) (List.Chain.nil)
    · have hp := (parse_fields_eq line st).2.2.2.1
      simp only [workerLoop, hobs, if_neg, Bool.false_eq_true, not_false_iff, List.map_cons,
        List.cons_append]
      exact List.Chain.cons (by simp [statusStep, hp, h])
        (by simpa [hp, h] using ih (parse_progress_line line st) (by simp [hp, h]))

/-! ### Registry lemmas -/

/-- `setEntry` leaves the key-to-status view of the registry unchanged
whenever the replacement keeps the status of the entry the key holds. -/
theorem setEntry_statuses (id : String) (st' : DownloadState) :
    ∀ reg : Registry, ∀ st, List.lookup id reg = some st → st'.status = st.status →
      (setEntry reg id st').map (fun e => (e.1, e.2.status))
        = reg.map (fun e => (e.1, e.2.status)) := by
  intro reg
  induction reg with
  | nil => intro st h; simp at h
  | cons e rest ih =>
    intro st h hstat
    by_cases hk : e.1 = id
    · have hb : (id == e.1) = true := by simp [hk]
      rw [List.lookup] at h
      simp only [hb] at h
      obtain rfl : e.2 = st := by simpa using h
      simp [setEntry, hk, hstat]
    · have hb : (id == e.1) = false := by simp [Ne.symm hk]
      rw [List.lookup] at h
      simp only [hb] at h
      simp [setEntry, hk, ih st h hstat]

/-- Looking up the written key after `setEntry` yields the written
state, provided the key is present. -/
theorem lookup_setEntry_self (id : String) (st' : DownloadState) :
    ∀ reg : Registry, (List.lookup id reg).isSome →
      List.lookup id (setEntry reg id st') = some st' := by
  intro reg
  induction reg with
  | nil => intro h; simp [List.lookup] at h
  | cons e rest ih =>
    intro h
    by_cases hk : e.1 = id
    · simp [setEntry, hk, List.lookup]
    · have hb : (id == e.1) = false := by simp [Ne.symm hk]
      rw [List.lookup] at h
      simp only [hb] at h
      simp only [setEntry, if_neg hk]
      rw [List.lookup]
      simp only [hb]
      exact ih h

/-- Looking up any other key is unaffected by `setEntry`. -/
theorem lookup_setEntry_other (id k : String) (st' : DownloadState) (hk : k ≠ id) :
    ∀ reg : Registry, List.lookup k (setEntry reg id st') = List.lookup k reg := by
  intro reg
  induction reg with
  | nil => simp [setEntry]
  | cons e rest ih =>
    by_cases he : e.1 = id
    · have hb : (k == id) = false := by simp [hk]
      have hb2 : (k == e.1) = false := by simp [he ▸ hk]
      simp only [setEntry, if_pos he]
      rw [List.lookup, List.lookup]
      simp [hb, hb2]
    · simp only [setEntry, if_neg he]
      rw [List.lookup, List.lookup]
      cases hkk : (k == e.1) <;> simp [ih]

/-- With unique keys, two registry entries sharing a key are the same
entry. -/
theorem keys_nodup_eq {reg : Registry} (h : (reg.map Prod.fst).Nodup)
    {i : String} {a b : DownloadState} (ha : (i, a) ∈ reg) (hb : (i, b) ∈ reg) : a = b := by
  induction reg with
  | nil => simp at ha
  | cons e rest ih =>
    simp only [List.map_cons, List.nodup_cons] at h
    rcases List.mem_cons.mp ha with rfl | ha' <;> rcases List.mem_cons.mp hb with hb' | hb'
    · exact (congrArg Prod.snd hb').symm
    · exact absurd (List.mem_map_of_mem Prod.fst hb') (by simpa using h.1)
    · obtain rfl := hb'
      exact absurd (List.mem_map_of_mem Prod.fst ha') (by simpa using h.1)
    · exact ih h.2 ha' hb'

/-- `cancel_download` never changes any job's status (it either writes
only the `cancel_requested` flag, or nothing). -/
theorem cancel_statuses (reg : Registry) (id : String) :
    (cancel_download reg id).map (fun e => (e.1, e.2.status))
      = reg.map (fun e => (e.1, e.2.status)) := by
  unfold cancel_download
  cases h : List.lookup id reg with
  | none => rfl
  | some st =>
    dsimp only
    by_cases hs : st.status = "downloading"
    · rw [if_pos hs]
      exact setEntry_statuses id _ reg st h (by simp)
    · rw [if_neg hs]

/-- The "failed" tail of a failing branch chains from "downloading". -/
theorem chain_failed : List.Chain statusStep "downloading" ["failed", "failed"] :=
  List.Chain.cons (by decide) (List.Chain.cons (by decide) List.Chain.nil)

/-- The "complete" tail of the success branch chains from "downloading". -/
theorem chain_complete :
    List.Chain statusStep "downloading" ["complete", "complete", "complete", "complete"] :=
  List.Chain.cons (by decide) (List.Chain.cons (by decide)
    (List.Chain.cons (by decide) (List.Chain.cons (by decide) List.Chain.nil)))

/-- The status history of one worker run consists solely of admissible
transitions when read from "queued" (the status every job is created
with): the run enters "downloading" once, stays there across every
parse step, and moves to exactly one terminal status at the end. -/
theorem worker_chain (env : WorkerEnv) (st0 : DownloadState) :
    List.Chain statusStep "queued"
      ((download_worker env st0).trace.map DownloadState.status) := by
  obtain ⟨spawn, stdout, lines, rerr, wt, rc, serr, wfs, wnow⟩ := env
  have hql : statusStep "queued" "downloading" := by simp [statusStep]
  simp only [download_worker, workerBody]
  cases spawn with
  | some e => simp; decide
  | none =>
  cases stdout with
  | false => simp; decide
  | true =>
  simp only [Bool.true_eq_false, if_false, if_neg, not_false_iff]
  by_cases hc : (workerLoop lines { st0 with status := "downloading" }).cancelled = true
  · simp only [hc, if_pos, List.map_cons]
    refine List.Chain.cons hql ?_
    have := workerLoop_chain [] List.Chain.nil lines { st0 with status := "downloading" }
      (by simp)
    simpa [hc] using this
  · simp only [hc, if_neg, not_false_iff, Bool.false_eq_true]
    cases rerr with
    | some e =>
      simp only [List.map_cons, List.map_append]
      refine List.Chain.cons hql ?_
      have := workerLoop_chain ["failed", "failed"] chain_failed lines
        { st0 with status := "downloading" } (by simp)
      simpa [hc] using this
    | none =>
    cases wt with
    | true =>
      simp only [if_true, if_pos, List.map_cons, List.map_append]
      refine List.Chain.cons hql ?_
      have := workerLoop_chain ["failed", "failed"] chain_failed lines
        { st0 with status := "downloading" } (by simp)
      simpa [hc] using this
    | false =>
    by_cases hrc : rc = 0
    · simp only [hrc, if_pos, Bool.false_eq_true, if_false, if_neg, not_false_iff,
        List.map_cons, List.map_append]
      refine List.Chain.cons hql ?_
      have := workerLoop_chain ["complete", "complete", "complete", "complete"] chain_complete
        lines { st0 with status := "downloading" } (by simp)
      simpa [hc, completeSeq, completeFinal] using this
    · simp only [hrc, Bool.false_eq_true, if_false, if_neg, not_false_iff,
        List.map_cons, List.map_append]
      refine List.Chain.cons hql ?_
      have := workerLoop_chain ["failed", "failed"] chain_failed lines
        { st0 with status := "downloading" } (by simp)
      simpa [hc] using this

/-! ### Base64 lemmas -/

/-- Every alphabet index below 64 yields an id-alphabet character. -/
theorem isIdChar_b64char {n : ℕ} (h : n < 64) : isIdChar (b64char n) = true := by
  have : ∀ m : Fin 64, isIdChar (b64char m.val) = true := by decide
  exact this ⟨n, h⟩

/-- Every character the encoder emits is in the id alphabet. -/
theorem b64encode_chars : ∀ l : List (Fin 256), ∀ c ∈ b64encode l, isIdChar c = true
  | [] => by simp [b64encode]
  | [a] => by
    intro c hc
    simp only [b64encode, List.mem_cons, List.not_mem_nil, or_false] at hc
    rcases hc with rfl | rfl
    · exact isIdChar_b64char (by omega)
    · exact isIdChar_b64char (by have := a.isLt; omega)
  | [a, b] => by
    intro c hc
    simp only [b64encode, List.mem_cons, List.not_mem_nil, or_false] at hc
    rcases hc with rfl | rfl | rfl
    · exact isIdChar_b64char (by omega)
    · exact isIdChar_b64char (by have := a.isLt; have := b.isLt; omega)
    · exact isIdChar_b64char (by have := b.isLt; omega)
  | a :: b :: c' :: rest => by
    intro c hc
    simp only [b64encode, List.mem_cons] at hc
    rcases hc with rfl | rfl | rfl | rfl | hc
    · exact isIdChar_b64char (by omega)
    · exact isIdChar_b64char (by have := a.isLt; have := b.isLt; omega)
    · exact isIdChar_b64char (by have := b.isLt; have := c'.isLt; omega)
    · exact isIdChar_b64char (by have := c'.isLt; omega)
    · exact b64encode_chars rest c hc

/-- Length of the unpadded encoding: four characters per three bytes,
plus two or three for a final partial group. -/
theorem b64encode_length : ∀ l : List (Fin 256),
    (b64encode l).length
      = 4 * (l.length / 3) + (if l.length % 3 = 0 then 0 else if l.length % 3 = 1 then 2 else 3)
  | [] => by simp [b64encode]
  | [a] => by simp [b64encode]
  | [a, b] => by simp [b64encode]
  | a :: b :: c' :: rest => by
    have ih := b64encode_length rest
    simp only [b64encode, List.length_cons, ih]
    by_cases h0 : rest.length % 3 = 0
    · have h3 : (rest.length + 1 + 1 + 1) % 3 = 0 := by omega
      simp only [h0, h3, if_pos]
      omega
    · by_cases h1 : rest.length % 3 = 1
      · have h3 : (rest.length + 1 + 1 + 1) % 3 = 1 := by omega
        have h3' : ¬(rest.length + 1 + 1 + 1) % 3 = 0 := by omega
        simp only [h0, h1, h3, h3', if_pos, if_neg, not_false_iff]
        omega
      · have h3' : ¬(rest.length + 1 + 1 + 1) % 3 = 0 := by omega
        have h3'' : ¬(rest.length + 1 + 1 + 1) % 3 = 1 := by omega
        simp only [h0, h1, h3', h3'', if_neg, not_false_iff]
        omega

/-- The spec-shaped strict check implies the code's regex check: a
string of 16-32 alphabet characters cannot end in a newline, so the
regex's trailing-newline allowance is immaterial for it. -/
theorem strictShape_implies_idShape {s : String} (h : strictShape s = true) :
    idShapeMatch s = true := by
  unfold strictShape at h
  simp only [idShapeMatch]
  simp only [Bool.and_eq_true, decide_eq_true_eq] at h
  obtain ⟨⟨hall, h16⟩, h32⟩ := h
  have hnl : s.toList.getLast? ≠ some '\n' := by
    intro hlast
    obtain ⟨hne, heq⟩ := List.mem_getLast?_eq_getLast (Option.mem_def.mpr hlast)
    have hmem : '\n' ∈ s.toList := by rw [heq]; exact List.getLast_mem hne
    have := List.all_eq_true.mp hall _ hmem
    simp [isIdChar] at this
  rw [if_neg hnl]
  simp only [Bool.and_eq_true, decide_eq_true_eq]
  exact ⟨⟨hall, h16⟩, h32⟩

/-! ### Sweep lemmas -/

/-- The ids collected by the sweep's first pass are exactly the keys of
the expired entries, in order. -/
theorem sweepFiles_ids (cutoff : ℚ) :
    ∀ (entries : List (String × DownloadState)) (fs : List String),
      (sweepFiles cutoff entries fs).2
        = (entries.filter (fun e => completedExpired cutoff e.2)).map Prod.fst := by
  intro entries
  induction entries with
  | nil => intro fs; simp [sweepFiles]
  | cons e rest ih =>
    intro fs
    obtain ⟨i, st⟩ := e
    by_cases h : completedExpired cutoff st <;> simp [sweepFiles, h, ih, List.filter_cons]

/-- A path `q` is deleted by the first pass iff some listed expired
entry records `q` as its (nonempty) artifact path. -/
def expiredDeletes (cutoff : ℚ) (entries : List (String × DownloadState)) (q : String) : Prop :=
  ∃ e ∈ entries, completedExpired cutoff e.2 = true ∧ e.2.final_path = some q ∧ q ≠ ""

/-- Characterisation of the filesystem after the sweep's first pass:
for a duplicate-free filesystem, a path survives iff it existed and no
expired entry pointed at it. -/
theorem sweepFiles_fs_mem (cutoff : ℚ) :
    ∀ (entries : List (String × DownloadState)) (fs : List String), fs.Nodup →
      ∀ q, q ∈ (sweepFiles cutoff entries fs).1 ↔
        (q ∈ fs ∧ ¬ expiredDeletes cutoff entries q) := by
  intro entries
  induction entries with
  | nil => intro fs _ q; simp [sweepFiles, expiredDeletes]
  | cons e rest ih =>
    intro fs hnd q
    obtain ⟨i, st⟩ := e
    by_cases hexp : completedExpired cutoff st
    · simp only [sweepFiles, hexp, if_pos]
      rcases hfp : st.final_path with _ | p
      · rw [ih fs hnd q]
        simp [expiredDeletes, hfp, hexp]
      · dsimp only
        by_cases hc : p ≠ "" ∧ p ∈ fs
        · rw [if_pos hc]
          rw [ih (fs.erase p) (hnd.erase p) q]
          rw [hnd.mem_erase_iff]
          constructor
          · rintro ⟨⟨hqp, hq⟩, hnd2⟩
            refine ⟨hq, ?_⟩
            rintro ⟨e2, he2, hx, hfp2, hne⟩
            rcases List.mem_cons.mp he2 with rfl | he2'
            · simp only [hfp] at hfp2
              exact hqp (by simpa using hfp2.symm)
            · exact hnd2 ⟨e2, he2', hx, hfp2, hne⟩
          · rintro ⟨hq, hnd2⟩
            have hqp : q ≠ p := by
              rintro rfl
              exact hnd2 ⟨(i, st), List.mem_cons_self _ _, hexp, hfp, hc.1⟩
            exact ⟨⟨hqp, hq⟩, fun ⟨e2, he2, hx, hfp2, hne⟩ =>
              hnd2 ⟨e2, List.mem_cons_of_mem _ he2, hx, hfp2, hne⟩⟩
        · rw [if_neg hc]
          rw [ih fs hnd q]
          constructor
          · rintro ⟨hq, hnd2⟩
            refine ⟨hq, ?_⟩
            rintro ⟨e2, he2, hx, hfp2, hne⟩
            rcases List.mem_cons.mp he2 with rfl | he2'
            · simp only [hfp, Option.some.injEq] at hfp2
              subst hfp2
              exact hc ⟨hne, hq⟩
            · exact hnd2 ⟨e2, he2', hx, hfp2, hne⟩
          · rintro ⟨hq, hnd2⟩
            exact ⟨hq, fun ⟨e2, he2, hx, hfp2, hne⟩ =>
              hnd2 ⟨e2, List.mem_cons_of_mem _ he2, hx, hfp2, hne⟩⟩
    · simp only [sweepFiles, hexp, if_neg, not_false_iff, Bool.false_eq_true]
      rw [ih fs hnd q]
      constructor
      · rintro ⟨hq, hnd2⟩
        refine ⟨hq, ?_⟩
        rintro ⟨e2, he2, hx, hfp2, hne⟩
        rcases List.mem_cons.mp he2 with rfl | he2'
        · simp_all
        · exact hnd2 ⟨e2, he2', hx, hfp2, hne⟩
      · rintro ⟨hq, hnd2⟩
        exact ⟨hq, fun ⟨e2, he2, hx, hfp2, hne⟩ =>
          hnd2 ⟨e2, List.mem_cons_of_mem _ he2, hx, hfp2, hne⟩⟩

/-! ### Glob lemma -/

/-- The first glob match is an existing file. -/
theorem globList_head_mem {pattern : String} {fs : List String} {p : String}
    (h : (globList pattern fs).head? = some p) : p ∈ fs := by
  have : p ∈ globList pattern fs := by
    cases hg : globList pattern fs with
    | nil => simp [hg] at h
    | cons a t => simp only [hg, List.head?_cons, Option.some.injEq] at h; simp [hg, h]
  exact (List.mem_filter.mp this).1

/-! ### Worker-level lemmas -/

/-- The completion time after one worker run: set (to the completion
clock value) exactly on the success branch, which is also the only
branch ending in status "complete"; every other branch leaves a fresh
job's completion time unset. -/
theorem worker_completed_at (env : WorkerEnv) (st0 : DownloadState)
    (h : st0.completed_at = none) :
    ((download_worker env st0).final.status = "complete" →
        (download_worker env st0).final.completed_at = some env.now) ∧
    ((download_worker env st0).final.status ≠ "complete" →
        (download_worker env st0).final.completed_at = none) := by
  obtain ⟨spawn, stdout, lines, rerr, wt, rc, serr, fs, now⟩ := env
  have hpres := (workerLoop_preserves lines { st0 with status := "downloading" }).1
  have hstat := workerLoop_status lines { st0 with status := "downloading" }
  simp only [download_worker, workerBody]
  cases spawn <;> cases stdout <;> cases rerr <;> cases wt <;>
    by_cases hc : (workerLoop lines { st0 with status := "downloading" }).cancelled = true <;>
    by_cases hrc : rc = 0 <;>
    simp_all [completeFinal]

/-- Status of the final state of one worker run, per branch: "failed"
on every raise, "cancelled" when the checkpoint fired, "complete" on
exit code zero. -/
theorem worker_final_status (env : WorkerEnv) (st0 : DownloadState) :
    (download_worker env st0).final.status = "complete" ∨
    (download_worker env st0).final.status = "failed" ∨
    (download_worker env st0).final.status = "cancelled" := by
  obtain ⟨spawn, stdout, lines, rerr, wt, rc, serr, fs, now⟩ := env
  have hstat := workerLoop_status lines { st0 with status := "downloading" }
  simp only [download_worker, workerBody]
  cases spawn <;> cases stdout <;> cases rerr <;> cases wt <;>
    by_cases hc : (workerLoop lines { st0 with status := "downloading" }).cancelled = true <;>
    by_cases hrc : rc = 0 <;>
    simp_all [completeFinal]

/-- Every state a worker run ever exhibits for a job whose artifact
path starts unset has an unset artifact path, except the state produced
by the success branch's final assignment, whose path is the first glob
match — an existing file. -/
theorem worker_trace_final_path (env : WorkerEnv) (st0 : DownloadState)
    (h0 : st0.final_path = none) :
    ∀ s ∈ st0 :: (download_worker env st0).trace, ∀ p, s.final_path = some p →
      s.status = "complete" ∧ p ∈ env.fs := by
  obtain ⟨spawn, stdout, lines, rerr, wt, rc, serr, fs, now⟩ := env
  intro s hs p hp
  have hloop := workerLoop_trace_preserves lines { st0 with status := "downloading" }
  have hloopfin := (workerLoop_preserves lines { st0 with status := "downloading" }).2.1
  simp only [download_worker, workerBody] at hs ⊢
  cases spawn with
  | some e =>
    simp only [List.nil_append, List.mem_cons, List.not_mem_nil, or_false] at hs
    rcases hs with rfl | rfl | rfl | rfl <;> simp_all
  | none =>
  cases stdout with
  | false =>
    simp only [Bool.false_eq_true, if_true, if_pos, List.nil_append, List.mem_cons,
      List.not_mem_nil, or_false] at hs
    rcases hs with rfl | rfl | rfl | rfl <;> simp_all
  | true =>
  simp only [Bool.true_eq_false, if_false, if_neg, not_false_iff] at hs
  by_cases hc : (workerLoop lines { st0 with status := "downloading" }).cancelled = true
  · simp only [hc, if_pos] at hs
    rcases List.mem_cons.mp hs with rfl | hs
    · simp_all
    · rcases List.mem_cons.mp hs with rfl | hs
      · simp_all
      · have := (hloop s hs).2
        simp_all
  · simp only [hc, if_neg, not_false_iff, Bool.false_eq_true] at hs
    cases rerr with
    | some e =>
      simp only at hs
      rcases List.mem_cons.mp hs with rfl | hs
      · simp_all
      · rcases List.mem_cons.mp hs with rfl | hs
        · simp_all
        · rcases List.mem_append.mp hs with hs | hs
          · have := (hloop s hs).2
            simp_all
          · simp only [List.mem_cons, List.not_mem_nil, or_false] at hs
            rcases hs with rfl | rfl <;> simp_all
    | none =>
    cases wt with
    | true =>
      simp only [if_true, if_pos] at hs
      rcases List.mem_cons.mp hs with rfl | hs
      · simp_all
      · rcases List.mem_cons.mp hs with rfl | hs
        · simp_all
        · rcases List.mem_append.mp hs with hs | hs
          · have := (hloop s hs).2
            simp_all
          · simp only [List.mem_cons, List.not_mem_nil, or_false] at hs
            rcases hs with rfl | rfl <;> simp_all
    | false =>
    by_cases hrc : rc = 0
    · simp only [hrc, if_pos, Bool.false_eq_true, if_false, if_neg, not_false_iff] at hs
      rcases List.mem_cons.mp hs with rfl | hs
      · simp_all
      · rcases List.mem_cons.mp hs with rfl | hs
        · simp_all
        · rcases List.mem_append.mp hs with hs | hs
          · have := (hloop s hs).2
            simp_all
          · simp only [completeSeq, completeFinal, List.mem_cons, List.not_mem_nil,
              or_false] at hs
            rcases hs with rfl | rfl | rfl | rfl
            · simp_all
            · simp_all
            · simp_all
            · refine ⟨by simp, ?_⟩
              simp only [DownloadState.final_path] at hp
              exact globList_head_mem (by simpa [find_downloaded_file] using hp)
    · simp only [hrc, Bool.false_eq_true, if_false, if_neg, not_false_iff] at hs
      rcases List.mem_cons.mp hs with rfl | hs
      · simp_all
      · rcases List.mem_cons.mp hs with rfl | hs
        · simp_all
        · rcases List.mem_append.mp hs with hs | hs
          · have := (hloop s hs).2
            simp_all
          · simp only [List.mem_cons, List.not_mem_nil, or_false] at hs
            rcases hs with rfl | rfl <;> simp_all

/-! ## Claims

One theorem per claim of the specification audit, each stating the
claim (or its minimally amended form) over the embedding above. -/

/-- C1: for every job, the status field only ever moves along
"queued" → "downloading" → one of the terminal statuses
{"complete", "failed", "cancelled"}: the worker run of a freshly
created job produces a status history consisting solely of admissible
steps (no step ever leaves a terminal status, and "downloading" is
entered only from "queued"); `cancel_download` never changes any job's
status; the completion callback acts only on an exception escaping the
worker — and none can, every exception of the worker body being caught
by its own handlers — so with no exception it changes nothing; and the
sweep only removes registry entries, never rewriting one. -/
theorem claim1_status_transitions (dir id url fmt : String) (t : ℚ) (env : WorkerEnv)
    (reg : Registry) (cid rid : String) (fs : List String) (tnow retH : ℚ) :
    List.Chain statusStep "queued"
      ((download_worker env (start_download_state dir id url fmt t)).trace.map
        DownloadState.status)
    ∧ (cancel_download reg cid).map (fun e => (e.1, e.2.status))
        = reg.map (fun e => (e.1, e.2.status))
    ∧ handle_completion reg rid none fs = (reg, fs)
    ∧ ((cleanup_expired_downloads tnow retH fs reg).2).Sublist reg :=
  ⟨worker_chain env _, cancel_statuses reg cid, rfl,
    by simp only [cleanup_expired_downloads]; exact List.filter_sublist reg⟩

/-- C5 (amended): after `_parse_progress_line` the progress field
equals the value of the percent token whenever that token parses as a
float, and keeps its previous value otherwise (a malformed token is
absorbed by the handler, never raised); the code stores the parsed
value verbatim, with no clamping to [0, 100]. -/
theorem claim5_progress_amended (line : String) (st : DownloadState) :
    (parse_progress_line line st).progress = (extractPercent line).getD st.progress :=
  parse_progress_eq line st

/-- C5 counterexample: the line `[download] 150.5% of ~10MiB` parses
its percent token successfully, yet leaves progress at 150.5, outside
[0, 100] — refuting the claim that progress lies within [0, 100] after
every successful parse. -/
theorem claim5_counterexample :
    (parse_progress_line "[download] 150.5% of ~10MiB" sampleState).progress = 301 / 2
    ∧ ¬((parse_progress_line "[download] 150.5% of ~10MiB" sampleState).progress ≤ 100) := by
  have h : extractPercent "[download] 150.5% of ~10MiB"
      = some (digitsVal ['1', '5', '0'] + digitsVal ['5'] / (10 : ℚ) ^ (1 : ℕ)) := rfl
  have d1 : digitsVal ['1', '5', '0'] = ((150 : ℕ) : ℚ) := by
    rw [digitsVal, show digitsValNat ['1', '5', '0'] = 150 from by decide]
  have d2 : digitsVal ['5'] = ((5 : ℕ) : ℚ) := by
    rw [digitsVal, show digitsValNat ['5'] = 5 from by decide]
  constructor
  · rw [parse_progress_eq, h, d1, d2]
    norm_num
  · rw [parse_progress_eq, h, d1, d2]
    norm_num

/-- C6 (amended): the speed field is set to the trimmed substring
between the first `" at "` and the following `" ETA"` (or the end of
the line), stored verbatim — but only for lines that, besides the
`[download]` marker and `" at "`, also contain `"/s"`; for any other
line it keeps its previous value. -/
theorem claim6_speed_amended (line : String) (st : DownloadState) :
    (parse_progress_line line st).speed = (extractSpeed line).getD st.speed :=
  parse_speed_eq line st

/-- C6 counterexample: the line
`[download]  45.2% of 10.00MiB at 1.21 ETA 00:05` contains the
`[download]` marker and `" at "`, and the claimed extraction would
store "1.21"; but the code's additional `"/s" in line` condition fails,
so the speed field keeps its previous value (here "") — refuting the
claim that there is no further condition on the line's content. -/
theorem claim6_counterexample :
    (parse_progress_line "[download]  45.2% of 10.00MiB at 1.21 ETA 00:05"
        sampleState).speed = ""
    ∧ ("" : String) ≠ "1.21" := by
  constructor
  · decide
  · decide

/-- C8: parsing the single line
`[download]  45.2% of 10.00MiB at 1.21MiB/s ETA 00:05` yields exactly
progress 45.2, speed "1.21MiB/s" and eta "00:05", whatever the prior
values of those fields. -/
theorem claim8_sample_line (st : DownloadState) :
    (parse_progress_line "[download]  45.2% of 10.00MiB at 1.21MiB/s ETA 00:05"
        st).progress = 45.2
    ∧ (parse_progress_line "[download]  45.2% of 10.00MiB at 1.21MiB/s ETA 00:05"
        st).speed = "1.21MiB/s"
    ∧ (parse_progress_line "[download]  45.2% of 10.00MiB at 1.21MiB/s ETA 00:05"
        st).eta = "00:05" := by
  refine ⟨?_, ?_, ?_⟩
  · rw [parse_progress_eq]
    have h : extractPercent "[download]  45.2% of 10.00MiB at 1.21MiB/s ETA 00:05"
        = some (digitsVal ['4', '5'] + digitsVal ['2'] / (10 : ℚ) ^ (1 : ℕ)) := rfl
    have d1 : digitsVal ['4', '5'] = ((45 : ℕ) : ℚ) := by
      rw [digitsVal, show digitsValNat ['4', '5'] = 45 from by decide]
    have d2 : digitsVal ['2'] = ((2 : ℕ) : ℚ) := by
      rw [digitsVal, show digitsValNat ['2'] = 2 from by decide]
    rw [h, d1, d2]
    show (45 : ℚ) + 2 / 10 ^ (1 : ℕ) = 45.2
    norm_num
  · rw [parse_speed_eq]
    have h : extractSpeed "[download]  45.2% of 10.00MiB at 1.21MiB/s ETA 00:05"
        = some "1.21MiB/s" := by decide
    rw [h]
    rfl
  · rw [parse_eta_eq]
    have h : extractEta "[download]  45.2% of 10.00MiB at 1.21MiB/s ETA 00:05"
        = some "00:05" := by decide
    rw [h]
    rfl

/-- Concrete registry entries used by the witness statements: one
completed job whose completion time 1 is long past, and one fresh
job. -/
def stExpired : DownloadState :=
  { start_download_state "/downloads" "aaaaaaaabbbbbbbb" "https://youtu.be/x" "22" 0 with
    status := "complete"
    progress := 100
    completed_at := some 1
    final_path := some "/downloads/aaaaaaaabbbbbbbb.mp4" }

/-- A second, still-queued job for the witness registry. -/
def stFresh : DownloadState :=
  start_download_state "/downloads" "ccccccccdddddddd" "https://youtu.be/y" "18" 0

/-- The witness registry. -/
def regW : Registry := [("aaaaaaaabbbbbbbb", stExpired), ("ccccccccdddddddd", stFresh)]

/-- The witness filesystem. -/
def fsW : List String := ["/downloads/aaaaaaaabbbbbbbb.mp4", "/downloads/other.mp4"]

/-- C2 (amended): when `cleanup_expired_downloads` runs, every
registered job whose recorded, nonzero completion time is older than
now minus the retention window has its artifact file deleted
(best-effort: a missing file is simply absent from the resulting
filesystem too) and its registry entry removed; every job whose
completion test fails — within the window, or with no completion time
recorded — keeps its entry; a file survives the sweep iff it existed
and no expired entry pointed at it.  Amendment to the claim's final
sentence: only a *successful* run records a completion time — a worker
run ending in any non-"complete" status leaves `completed_at` unset
(so failed jobs are never swept). -/
theorem claim2_sweep_amended (tnow retH : ℚ) (fs : List String) (reg : Registry)
    (hfs : fs.Nodup) (hkeys : (reg.map Prod.fst).Nodup) :
    (∀ i st, (i, st) ∈ reg → completedExpired (tnow - retH * 3600) st = true →
        (∀ st2, ¬ (i, st2) ∈ (cleanup_expired_downloads tnow retH fs reg).2) ∧
        (∀ p, st.final_path = some p → p ≠ "" →
          ¬ p ∈ (cleanup_expired_downloads tnow retH fs reg).1))
    ∧ (∀ i st, (i, st) ∈ reg → completedExpired (tnow - retH * 3600) st = false →
        (i, st) ∈ (cleanup_expired_downloads tnow retH fs reg).2)
    ∧ (∀ q, q ∈ (cleanup_expired_downloads tnow retH fs reg).1 ↔
        (q ∈ fs ∧ ¬ expiredDeletes (tnow - retH * 3600) reg q))
    ∧ (∀ (env : WorkerEnv) (dir id url fmt : String) (t : ℚ),
        ((download_worker env (start_download_state dir id url fmt t)).final.status
            = "complete" →
          (download_worker env (start_download_state dir id url fmt t)).final.completed_at
            = some env.now)
        ∧ ((download_worker env (start_download_state dir id url fmt t)).final.status
            ≠ "complete" →
          (download_worker env (start_download_state dir id url fmt t)).final.completed_at
            = none)) := by
  have hids : (sweepFiles (tnow - retH * 3600) reg fs).2
      = (reg.filter (fun e => completedExpired (tnow - retH * 3600) e.2)).map Prod.fst :=
    sweepFiles_ids _ reg fs
  refine ⟨?_, ?_, ?_, ?_⟩
  · intro i st hmem hexp
    constructor
    · intro st2 hmem2
      simp only [cleanup_expired_downloads, List.mem_filter] at hmem2
      have : (i : String) ∈ (sweepFiles (tnow - retH * 3600) reg fs).2 := by
        rw [hids]
        exact List.mem_map_of_mem Prod.fst (List.mem_filter.mpr ⟨hmem, hexp⟩)
      have hpred := hmem2.2
      simp only [Bool.not_eq_true', decide_eq_false_iff_not] at hpred
      exact hpred this
    · intro p hp hpne hmem2
      have := (sweepFiles_fs_mem (tnow - retH * 3600) reg fs hfs p).mp
        (by simpa [cleanup_expired_downloads] using hmem2)
      exact this.2 ⟨(i, st), hmem, hexp, hp, hpne⟩
  · intro i st hmem hexp
    simp only [cleanup_expired_downloads, List.mem_filter]
    refine ⟨hmem, ?_⟩
    simp only [Bool.not_eq_true', decide_eq_false_iff_not]
    rw [hids]
    intro hin
    obtain ⟨e, he, heq⟩ := List.mem_map.mp hin
    have hef := List.mem_filter.mp he
    obtain ⟨i2, st2⟩ := e
    obtain rfl : i2 = i := heq
    have : st2 = st := keys_nodup_eq hkeys hef.1 hmem
    subst this
    rw [hexp] at hef
    exact Bool.false_ne_true hef.2
  · intro q
    simpa [cleanup_expired_downloads] using sweepFiles_fs_mem (tnow - retH * 3600) reg fs hfs q
  · intro env dir id url fmt t
    exact worker_completed_at env (start_download_state dir id url fmt t) rfl

/-- C2 counterexample: a worker run that fails (here: the external
process exits with code 1) ends with status "failed" and **no**
completion time, contradicting the claim's appeal to the data model
that every terminal successful-or-failed job carries a completion
time.  (Such a failed job also fails the sweep's expiry test forever.) -/
theorem claim2_counterexample :
    (download_worker { returncode := 1 } sampleState).final.status = "failed"
    ∧ (download_worker { returncode := 1 } sampleState).final.completed_at = none
    ∧ completedExpired 1000000 (download_worker { returncode := 1 } sampleState).final
        = false := by
  refine ⟨rfl, rfl, rfl⟩

/-- C2 witness: on the concrete registry `regW` over filesystem `fsW`
with now = 2 and a zero-hour retention window, the expired job's
artifact is deleted and the fresh job's entry survives. -/
theorem claim2_witness :
    (¬ "/downloads/aaaaaaaabbbbbbbb.mp4" ∈ (cleanup_expired_downloads 2 0 fsW regW).1)
    ∧ ("ccccccccdddddddd", stFresh) ∈ (cleanup_expired_downloads 2 0 fsW regW).2 := by
  have h := claim2_sweep_amended 2 0 fsW regW (by decide) (by decide)
  have hexp : completedExpired (2 - 0 * 3600) stExpired = true := by
    simp only [completedExpired, stExpired]
    norm_num
  have hfresh : completedExpired (2 - 0 * 3600) stFresh = false := rfl
  exact ⟨(h.1 "aaaaaaaabbbbbbbb" stExpired (by decide) hexp).2
      "/downloads/aaaaaaaabbbbbbbb.mp4" rfl (by decide),
    h.2.1 "ccccccccdddddddd" stFresh (by decide) hfresh⟩

/-- C3: when the spawned process is read to exhaustion with no
cancellation observed and exits with code 0, the worker ends Complete,
with `final_path` the first filesystem entry matching the job's output
pattern (the id-derived glob); and in every state the run ever
exhibits, a set `final_path` occurs only with status "complete" and
only naming a file that existed at glob time — glob matching being the
existence confirmation (the source's further `os.path.exists` check
only gates a log line). -/
theorem claim3_complete_artifact (dir id url fmt : String) (t : ℚ) (env : WorkerEnv)
    (hspawn : env.spawn_error = none) (hout : env.stdout_ok = true)
    (hnc : env.lines.any (fun x => x.1) = false) (hread : env.read_error = none)
    (hwait : env.wait_timeout = false) (hrc : env.returncode = 0) :
    ((download_worker env (start_download_state dir id url fmt t)).final.status = "complete"
      ∧ (download_worker env (start_download_state dir id url fmt t)).final.final_path
          = (globList (pyReplace (start_download_state dir id url fmt t).output_path
              ".%(ext)s" ".*") env.fs).head?)
    ∧ (∀ s ∈ start_download_state dir id url fmt t ::
          (download_worker env (start_download_state dir id url fmt t)).trace,
        ∀ p, s.final_path = some p → s.status = "complete" ∧ p ∈ env.fs) := by
  refine ⟨?_, worker_trace_final_path env (start_download_state dir id url fmt t) rfl⟩
  obtain ⟨spawn, stdout, lines, rerr, wt, rc, serr, wfs, wnow⟩ := env
  simp only at hspawn hout hnc hread hwait hrc
  subst hspawn
  subst hout
  subst hread
  subst hwait
  subst hrc
  have hc : (workerLoop lines
      { start_download_state dir id url fmt t with status := "downloading" }).cancelled
        = false := by
    rw [workerLoop_cancelled]
    exact hnc
  have hop := (workerLoop_preserves lines
    { start_download_state dir id url fmt t with status := "downloading" }).2.2.1
  simp only [download_worker, workerBody, hc, Bool.false_eq_true, if_false, if_neg,
    not_false_iff, if_true, if_pos, Bool.true_eq_false]
  refine ⟨by simp [completeFinal], ?_⟩
  simp only [completeFinal, find_downloaded_file]
  rw [hop]

/-- The worker environment of the success-path witness: exit code 0
(the default), one matching artifact on disk. -/
def envW : WorkerEnv := { fs := ["/downloads/abcdefghabcdefgh.mp4"], now := 5 }

/-- C3 witness: running the worker for `sampleState` in `envW` ends
Complete with the artifact path, and that path is an existing file. -/
theorem claim3_witness :
    (download_worker envW sampleState).final.status = "complete"
    ∧ (download_worker envW sampleState).final.final_path
        = some "/downloads/abcdefghabcdefgh.mp4"
    ∧ "/downloads/abcdefghabcdefgh.mp4" ∈ envW.fs := by
  have h := claim3_complete_artifact "/downloads" "abcdefghabcdefgh" "https://youtu.be/x"
    "22" 0 envW rfl rfl rfl rfl rfl rfl
  simp only [sampleState]
  refine ⟨h.1.1, ?_, by decide⟩
  rw [h.1.2]
  decide

/-- C4: `cancel_download` sets the cancellation flag iff the id names a
job whose status is currently "downloading" (leaving every other entry
untouched); a registered job in any other status, and an unknown id,
produce no state change at all — and the function is total, so the
call returns successfully rather than raising, revealing nothing about
whether the id exists. -/
theorem claim4_cancel (reg : Registry) (id : String) :
    (∀ st, List.lookup id reg = some st → st.status = "downloading" →
        List.lookup id (cancel_download reg id) = some { st with cancel_requested := true }
        ∧ ∀ k, k ≠ id → List.lookup k (cancel_download reg id) = List.lookup k reg)
    ∧ (∀ st, List.lookup id reg = some st → st.status ≠ "downloading" →
        cancel_download reg id = reg)
    ∧ (List.lookup id reg = none → cancel_download reg id = reg) := by
  refine ⟨?_, ?_, ?_⟩
  · intro st h hs
    unfold cancel_download
    rw [h]
    dsimp only
    rw [if_pos hs]
    exact ⟨lookup_setEntry_self id _ reg (by simp [h]),
      fun k hk => lookup_setEntry_other id k _ hk reg⟩
  · intro st h hs
    unfold cancel_download
    rw [h]
    dsimp only
    rw [if_neg hs]
  · intro h
    unfold cancel_download
    rw [h]

/-- A running job for the cancellation witness. -/
def stRunning : DownloadState := { sampleState with status := "downloading" }

/-- The cancellation witness registry: one running job, one queued job. -/
def regC : Registry := [("abcdefghabcdefgh", stRunning), ("ccccccccdddddddd", stFresh)]

/-- C4 witness: on `regC`, cancelling the running job sets exactly its
flag; cancelling the queued job and cancelling an unknown id change
nothing. -/
theorem claim4_witness :
    List.lookup "abcdefghabcdefgh" (cancel_download regC "abcdefghabcdefgh")
      = some { stRunning with cancel_requested := true }
    ∧ cancel_download regC "ccccccccdddddddd" = regC
    ∧ cancel_download regC "zzzzzzzzzzzzzzzz" = regC := by
  refine ⟨((claim4_cancel regC "abcdefghabcdefgh").1 stRunning (by decide) rfl).1, ?_, ?_⟩
  · exact (claim4_cancel regC "ccccccccdddddddd").2.1 stFresh (by decide) (by decide)
  · exact (claim4_cancel regC "zzzzzzzzzzzzzzzz").2.2 (by decide)

/-- The storage environment of the concrete storage statements: an
empty filesystem and the identity resolver. -/
def storageEnv0 : StorageEnv := { fs := [], resolve := fun s => s }

/-- C7 (amended): `get_file_path` rejects as Invalid, before touching
the filesystem (its access trace is empty), every id failing the
code's `re.match(r"^[a-zA-Z0-9_\-]{16,32}$", ...)` check — which, by
Python's `$` semantics, is the spec's fixed-alphabet 16-32 shape *plus*
one optional trailing newline; for an id that passes and matches a
file, the first match is resolved and the result is returned only when
the resolved path's string form starts with the resolved storage
root's string form, Invalid (a traversal error) otherwise. -/
theorem claim7_storage_amended (env : StorageEnv) (dir id : String) :
    (idShapeMatch id = false → get_file_path env dir id = (.invalidId, []))
    ∧ (∀ p ops, get_file_path env dir id = (.ok p, ops) →
        pyStartswith (env.resolve dir) p = true ∧ ∃ m ∈ env.fs, p = env.resolve m)
    ∧ (∀ m rest, idShapeMatch id = true → pathGlob dir id env.fs = m :: rest →
        pyStartswith (env.resolve dir) (env.resolve m) = false →
        (get_file_path env dir id).1 = .traversal) := by
  refine ⟨?_, ?_, ?_⟩
  · intro h
    simp [get_file_path, h]
  · intro p ops h
    unfold get_file_path at h
    by_cases hshape : idShapeMatch id = false
    · rw [if_pos hshape] at h
      exact absurd (congrArg Prod.fst h) (by simp)
    · rw [if_neg hshape] at h
      cases hg : pathGlob dir id env.fs with
      | nil =>
        rw [hg] at h
        exact absurd (congrArg Prod.fst h) (by simp)
      | cons m rest =>
        rw [hg] at h
        dsimp only at h
        by_cases hpre : pyStartswith (env.resolve dir) (env.resolve m) = true
        · rw [if_pos hpre] at h
          obtain ⟨h1, -⟩ := Prod.mk.injEq .. ▸ h
          have hp : p = env.resolve m := by
            have := congrArg Prod.fst h
            simpa using this.symm
          subst hp
          refine ⟨hpre, m, ?_, rfl⟩
          have : m ∈ pathGlob dir id env.fs := by rw [hg]; exact List.mem_cons_self m rest
          exact (List.mem_filter.mp this).1
        · rw [if_neg hpre] at h
          exact absurd (congrArg Prod.fst h) (by simp)
  · intro m rest hshape hg hpre
    unfold get_file_path
    rw [if_neg (by simp [hshape]), hg]
    dsimp only
    rw [if_neg (by rw [hpre]; exact Bool.false_ne_true)]

/-- C7 counterexample: the id consisting of sixteen `a`s followed by a
newline fails the spec's strict shape check, yet the code's regex
accepts it (Python `$` matches before a final newline), so the lookup
proceeds to glob the directory: a filesystem access happens for an id
outside the claimed shape, and no Invalid is returned. -/
theorem claim7_counterexample :
    strictShape "aaaaaaaaaaaaaaaa\n" = false
    ∧ idShapeMatch "aaaaaaaaaaaaaaaa\n" = true
    ∧ (get_file_path storageEnv0 "/downloads" "aaaaaaaaaaaaaaaa\n").2 ≠ []
    ∧ (get_file_path storageEnv0 "/downloads" "aaaaaaaaaaaaaaaa\n").1 ≠ .invalidId := by
  refine ⟨by decide, by decide, by decide, by decide⟩

/-- C7 witness: the spec's own example `../../etc/passwd` is rejected
as Invalid with an empty filesystem-access trace. -/
theorem claim7_witness :
    get_file_path storageEnv0 "/downloads" "../../etc/passwd"
      = (StorageResult.invalidId, []) :=
  (claim7_storage_amended storageEnv0 "/downloads" "../../etc/passwd").1 (by decide)

/-- C10: every id `start_download` can generate — the URL-safe base64
encoding of 16 random bytes — is a 22-character string over
`[A-Za-z0-9_-]`, so it satisfies both the spec's strict shape and the
storage agent's regex check: an orchestrator-issued id is never
rejected as an invalid identifier. -/
theorem claim10_token_shape (bytes : List (Fin 256)) (dir url fmt : String) (t : ℚ)
    (h : bytes.length = 16) :
    idShapeMatch (start_download_state dir (tokenUrlsafe bytes) url fmt t).id = true
    ∧ strictShape (tokenUrlsafe bytes) = true
    ∧ (tokenUrlsafe bytes).toList.length = 22 := by
  have hlen : (tokenUrlsafe bytes).toList.length = 22 := by
    show (b64encode bytes).length = 22
    rw [b64encode_length, h]
    decide
  have hall : (tokenUrlsafe bytes).toList.all isIdChar = true :=
    List.all_eq_true.mpr (b64encode_chars bytes)
  have hstrict : strictShape (tokenUrlsafe bytes) = true := by
    unfold strictShape
    rw [hlen, hall]
    rfl
  exact ⟨strictShape_implies_idShape hstrict, hstrict, hlen⟩

/-- C10 witness: the all-zero byte string encodes to 22 `A`s, which
both shape checks accept. -/
theorem claim10_witness :
    idShapeMatch (start_download_state "/downloads"
        (tokenUrlsafe (List.replicate 16 (0 : Fin 256))) "https://youtu.be/x" "22" 0).id
      = true
    ∧ (tokenUrlsafe (List.replicate 16 (0 : Fin 256))).toList.length = 22 := by
  have h := claim10_token_shape (List.replicate 16 (0 : Fin 256)) "/downloads"
    "https://youtu.be/x" "22" 0 (by decide)
  exact ⟨h.1, h.2.2⟩

end Fetch
